import Mathlib

/-!
Verification of the gpx-sunheadinger engine (src/main.go) against its
natural-language specification.

The Go source is shallowly embedded: float64 arithmetic is modelled by exact
arithmetic in a linear ordered field with a floor (so both the rationals, used
for the executable pipeline model, and the reals, used for the trigonometric
bearing formula, are instances).  Go's `math.Mod(x, y)` is the truncated
remainder `x - y * trunc(x/y)`; the repeated inline idiom
`m := math.Mod(d, 360); if m < 0 then m = 360 + m` is `normalize360` below.
-/

namespace SunHeading

variable {K : Type} [LinearOrderedField K] [FloorRing K]

/-- Truncation toward zero, the semantics of Go's float-to-int conversion and
of the `math.Trunc` underlying `math.Mod`. -/
def rtrunc (x : K) : ℤ := if 0 ≤ x then ⌊x⌋ else ⌈x⌉

/-- Go's `math.Mod(x, y) = x - y * trunc(x/y)` (result has the sign of `x`). -/
def goMod (x y : K) : K := x - y * (rtrunc (x / y) : K)

/-- The inline normalization idiom of src/main.go (lines 203-205, 222-225,
229-231): take `math.Mod(d, 360)` and add 360 when negative. -/
def normalize360 (d : K) : K :=
  if goMod d 360 < 0 then 360 + goMod d 360 else goMod d 360

/-- Modelled from the spec: `normalize360(d) = ((d mod 360) + 360) mod 360`,
with `mod` read as the truncated remainder the program uses. -/
def specNormalize360 (d : K) : K := goMod (goMod d 360 + 360) 360

theorem rtrunc_bounds (q : K) : q - 1 < (rtrunc q : K) ∧ (rtrunc q : K) < q + 1 := by
  unfold rtrunc
  split_ifs with h
  · exact ⟨Int.sub_one_lt_floor q, lt_of_le_of_lt (Int.floor_le q) (by linarith)⟩
  · exact ⟨lt_of_lt_of_le (by linarith) (Int.le_ceil q), Int.ceil_lt_add_one q⟩

theorem rtrunc_of_nonneg {x : K} (h : 0 ≤ x) : rtrunc x = ⌊x⌋ := by
  unfold rtrunc; simp [h]

theorem goMod360_bounds (x : K) : -360 < goMod x 360 ∧ goMod x 360 < 360 := by
  obtain ⟨h1, h2⟩ := rtrunc_bounds (x / 360)
  have h360 : (0:K) < 360 := by norm_num
  have e : x / 360 * 360 = x := div_mul_cancel₀ x (by norm_num)
  constructor
  · have := mul_lt_mul_of_pos_right h2 h360
    rw [add_mul, one_mul, e] at this
    unfold goMod; nlinarith
  · have := mul_lt_mul_of_pos_right h1 h360
    rw [sub_mul, one_mul, e] at this
    unfold goMod; nlinarith

theorem goMod360_nonneg {x : K} (h : 0 ≤ x) : 0 ≤ goMod x 360 := by
  have hq : 0 ≤ x / 360 := by positivity
  unfold goMod
  rw [rtrunc_of_nonneg hq]
  have hf : (⌊x / 360⌋ : K) ≤ x / 360 := Int.floor_le _
  nlinarith

theorem normalize360_nonneg (d : K) : 0 ≤ normalize360 d := by
  unfold normalize360
  obtain ⟨h1, _⟩ := goMod360_bounds (K := K) d
  split_ifs with h <;> linarith

theorem normalize360_lt_360 (d : K) : normalize360 d < 360 := by
  unfold normalize360
  obtain ⟨_, h2⟩ := goMod360_bounds (K := K) d
  split_ifs with h <;> linarith

/-- The normalized value differs from the input by an integer multiple of 360. -/
theorem normalize360_sub_int (d : K) : ∃ k : ℤ, d - normalize360 d = 360 * k := by
  unfold normalize360 goMod
  split_ifs with h
  · exact ⟨rtrunc (d / 360) - 1, by push_cast; ring⟩
  · exact ⟨rtrunc (d / 360), by ring⟩

/-- Uniqueness of the representative in [0, 360). -/
theorem normalize360_unique {d r : K} (h0 : 0 ≤ r) (h1 : r < 360)
    (h2 : ∃ k : ℤ, d - r = 360 * k) : normalize360 d = r := by
  obtain ⟨k, hk⟩ := h2
  obtain ⟨k0, hk0⟩ := normalize360_sub_int d
  have hr : normalize360 d - r = 360 * ((k : K) - k0) := by
    have : normalize360 d - r = (d - r) - (d - normalize360 d) := by ring
    rw [this, hk, hk0]; ring
  have hb0 : 0 ≤ normalize360 d := normalize360_nonneg d
  have hb1 : normalize360 d < 360 := normalize360_lt_360 d
  have hml : (-1 : K) < (k : K) - k0 := by nlinarith
  have hmu : ((k : K) - k0) < 1 := by nlinarith
  have hml' : (-1 : ℤ) < k - k0 := by exact_mod_cast (by push_cast; linarith : ((-1:ℤ) : K) < ((k - k0 : ℤ) : K))
  have hmu' : (k - k0 : ℤ) < 1 := by exact_mod_cast (by push_cast; linarith : (((k - k0 : ℤ)) : K) < ((1:ℤ) : K))
  have : k - k0 = 0 := by omega
  have hkk : (k : K) = k0 := by
    have := congrArg (fun z : ℤ => (z : K)) this
    push_cast at this; linarith
  nlinarith [hr]

/-- Shifting the argument by an integer multiple of 360 does not change the
normalized value. -/
theorem normalize360_sub_intmul (d : K) (k : ℤ) :
    normalize360 (d - 360 * k) = normalize360 d := by
  apply normalize360_unique (normalize360_nonneg _) (normalize360_lt_360 _)
  obtain ⟨k0, hk0⟩ := normalize360_sub_int d
  exact ⟨k0 - k, by push_cast; linarith⟩

/-- Normalizing an already-normalized value before a subtraction gives the same
result as subtracting directly: normalize360 is invariant mod 360. -/
theorem normalize360_normalize360_sub (a h : K) :
    normalize360 (normalize360 a - h) = normalize360 (a - h) := by
  obtain ⟨k, hk⟩ := normalize360_sub_int a
  have e : normalize360 a - h = (a - h) - 360 * (k : K) := by linarith
  rw [e, normalize360_sub_intmul]

/-- The spec's formulation `((d mod 360) + 360) mod 360` agrees with the
program's conditional-add normalization. -/
theorem specNormalize360_eq (d : K) : specNormalize360 d = normalize360 d := by
  unfold specNormalize360
  have hm := goMod360_bounds (K := K) d
  have hnn : 0 ≤ goMod d 360 + 360 := by linarith [hm.1]
  have hb := goMod360_bounds (K := K) (goMod d 360 + 360)
  have h0 : 0 ≤ goMod (goMod d 360 + 360) 360 := goMod360_nonneg hnn
  refine (normalize360_unique h0 hb.2 ?_).symm
  unfold goMod
  refine ⟨rtrunc ((goMod d 360 + 360) / 360) - 1 + rtrunc (d / 360), ?_⟩
  unfold goMod
  push_cast
  ring

/-- Bucket index of a normalized angle: the floor is between 0 and 359. -/
theorem rtrunc_normalize360_nonneg (d : K) : 0 ≤ rtrunc (normalize360 d) := by
  rw [rtrunc_of_nonneg (normalize360_nonneg d)]
  exact Int.floor_nonneg.mpr (normalize360_nonneg d)

theorem rtrunc_normalize360_le (d : K) : rtrunc (normalize360 d) ≤ 359 := by
  rw [rtrunc_of_nonneg (normalize360_nonneg d)]
  have h : ⌊normalize360 d⌋ < (360 : ℤ) := by
    rw [Int.floor_lt]
    push_cast
    exact normalize360_lt_360 d
  omega

/-- Sun state enumeration of src/main.go lines 50-56 (iota order: SunDowned,
SunLow, SunBlinding, SunUp, Unknown). -/
inductive SunState where
  | SunDowned : SunState
  | SunLow : SunState
  | SunBlinding : SunState
  | SunUp : SunState
  | Unknown : SunState
deriving DecidableEq, Repr

open SunState

/-- EnumIndex of src/main.go lines 60-62: the underlying integer of the enum. -/
def SunState.EnumIndex : SunState → ℤ
  | SunDowned => 0
  | SunLow => 1
  | SunBlinding => 2
  | SunUp => 3
  | Unknown => 4

/-- ToString of src/main.go lines 64-76. -/
def SunState.ToString : SunState → String
  | SunDowned => "Sun Down"
  | SunLow => "Sun Low"
  | SunBlinding => "Sun Blinding"
  | SunUp => "Sun Up"
  | Unknown => "Unknown"

/-- hasChanged of src/main.go lines 78-84: compares EnumIndex of the current
state with the new state; on a difference it commits the new state (the global
currentSunState is modelled by explicitly threading the returned state) and
reports true, otherwise it reports false and keeps the state. -/
def hasChangedP (cur new : SunState) : Bool × SunState :=
  if cur.EnumIndex = new.EnumIndex then (false, cur) else (true, new)

/-- Classification thresholds of src/main.go lines 210, 240 and 243: a set sun
(elevation below 0) is Down; deep sun is elevation strictly between 0 and 15,
split into Blinding when the impact angle is within 30 degrees of dead ahead
or dead behind, otherwise Low; everything else is Up. -/
def classify (elevation impact : ℚ) : SunState :=
  if elevation < 0 then SunDowned
  else if 0 < elevation ∧ elevation < 15 then
    if impact < 30 ∨ 330 < impact then SunBlinding else SunLow
  else SunUp

/-- Track point: timestamp (seconds), latitude and longitude (degrees).  The
timestamp models time.Time through Sub/Seconds, which the program only ever
uses as a difference in seconds. -/
structure Point where
  t : ℚ
  lat : ℚ
  lon : ℚ
deriving DecidableEq, Repr

/-- One row of the per-sample CSV record stream (src/main.go lines 261-269):
timestamp, timegap, lat, lon, carHeading, sunAzimuth (after hemisphere
correction and normalization), sunElevation, sunImpactAngle. -/
structure Record where
  t : ℚ
  timegap : ℚ
  lat : ℚ
  lon : ℚ
  heading : ℚ
  azimuth : ℚ
  elevation : ℚ
  impact : ℚ
deriving DecidableEq, Repr

/-- Events appended to the segmented GPX output: a new labeled section opened
at a sun-state transition (nextTrack, carrying the committed state, its display
label and the previous point as shared boundary), or a track point appended. -/
inductive GpxEvent where
  | sectionOpen : SunState → String → Point → GpxEvent
  | trackPoint : Point → GpxEvent
deriving DecidableEq, Repr

/-- Mutable state of one segment-processing pass: the global currentSunState,
the four 360-bucket histograms (src/main.go lines 158-164, kept as functions
from the bucket index; the program only ever writes indices below 360), the
CSV rows written so far and the GPX events appended so far. -/
structure PipeState where
  sun : SunState
  count : ℕ → ℚ
  timeSum : ℕ → ℚ
  deepSum : ℕ → ℚ
  blindSum : ℕ → ℚ
  csv : List Record
  gpx : List GpxEvent

/-- Fresh per-segment state: histograms zeroed (make([]float64, 360)), no
output yet, sun state carried in from the surrounding run. -/
def initSeg (s : SunState) : PipeState :=
  ⟨s, fun _ => 0, fun _ => 0, fun _ => 0, fun _ => 0, [], []⟩

/-- In-place increment of one histogram bucket (arr[i] += x). -/
def bump (f : ℕ → ℚ) (i : ℕ) (x : ℚ) : ℕ → ℚ :=
  fun j => if j = i then f j + x else f j

/-- Heading between two consecutive points, src/main.go lines 196-206: the
spherical-bearing atan2 converted to degrees is supplied by the abstract
math-library oracle theta (modelled separately over the reals as carHeading),
and the program then normalizes it to [0,360). -/
def headingOf (theta : Point → Point → ℚ) (prev cur : Point) : ℚ :=
  normalize360 (theta prev cur)

/-- Hemisphere-corrected, normalized sun azimuth, src/main.go lines 217-225:
add 180 degrees when the latitude is strictly positive, then normalize. -/
def azCorrectedOf (sun : Point → ℚ × ℚ) (cur : Point) : ℚ :=
  normalize360 (if 0 < cur.lat then (sun cur).1 + 180 else (sun cur).1)

/-- Sun impact angle as the program computes it, src/main.go lines 217-231
(stated over any ordered field with a floor, so it covers both the rational
pipeline model and real-valued inputs). -/
def codeSunImpact (lat azRaw heading : K) : K :=
  normalize360 (normalize360 (if 0 < lat then azRaw + 180 else azRaw) - heading)

/-- Modelled from the spec: the corrected azimuth is the ephemeris azimuth
plus 180 degrees normalized to [0,360) when the latitude is strictly positive,
and the unmodified ephemeris azimuth otherwise; the impact angle is
normalize360 of corrected azimuth minus heading. -/
def specSunImpact (lat azRaw heading : K) : K :=
  normalize360 ((if 0 < lat then normalize360 (azRaw + 180) else azRaw) - heading)

/-- Shared tail of the three daylight classification branches, src/main.go
lines 245-269: ask the state machine about the new state, open a new labeled
section on a change (boundary at the previous point), append the current point
to the GPX output and write the CSV row. -/
def finishSample (st : PipeState) (s : SunState) (prev cur : Point) (rec : Record) :
    PipeState :=
  { st with
    sun := (hasChangedP st.sun s).2,
    gpx := st.gpx
      ++ (if (hasChangedP st.sun s).1 then [GpxEvent.sectionOpen s (SunState.ToString s) prev] else [])
      ++ [GpxEvent.trackPoint cur],
    csv := st.csv ++ [rec] }

/-- Down branch, src/main.go lines 210-216: a set sun makes it to the graph
(section change plus the appended point) but not into the statistics and not
into the CSV stream (the branch continues before the CSV write). -/
def downStep (st : PipeState) (prev cur : Point) : PipeState :=
  { st with
    sun := (hasChangedP st.sun SunDowned).2,
    gpx := st.gpx
      ++ (if (hasChangedP st.sun SunDowned).1 then
            [GpxEvent.sectionOpen SunDowned (SunState.ToString SunDowned) prev] else [])
      ++ [GpxEvent.trackPoint cur] }

/-- Sun impact angle of a sample, src/main.go lines 227-231: corrected
azimuth minus heading, normalized. -/
def sampleImpact (theta : Point → Point → ℚ) (sun : Point → ℚ × ℚ)
    (prev cur : Point) : ℚ :=
  normalize360 (azCorrectedOf sun cur - headingOf theta prev cur)

/-- Histogram bucket of a sample: the impact angle truncated to an integer
(int(sunImpactAngle), nonnegative here, so truncation is the floor). -/
def sampleBucket (theta : Point → Point → ℚ) (sun : Point → ℚ × ℚ)
    (prev cur : Point) : ℕ :=
  (rtrunc (sampleImpact theta sun prev cur)).toNat

/-- CSV row of a processed sample, src/main.go lines 261-269. -/
def sampleRecord (theta : Point → Point → ℚ) (sun : Point → ℚ × ℚ)
    (prev cur : Point) : Record :=
  ⟨cur.t, cur.t - prev.t, cur.lat, cur.lon, headingOf theta prev cur,
    azCorrectedOf sun cur, (sun cur).2, sampleImpact theta sun prev cur⟩

/-- Histogram accumulation of a processed sample, src/main.go lines 234-244:
count and time-sum always, deep-sun time on elevation strictly between 0 and
15, blinding time additionally on impact within 30 degrees of ahead or
behind (the nested conditionals of the source flattened to conjunctions). -/
def accumHists (theta : Point → Point → ℚ) (sun : Point → ℚ × ℚ)
    (st : PipeState) (prev cur : Point) : PipeState :=
  { st with
    count := bump st.count (sampleBucket theta sun prev cur) 1,
    timeSum := bump st.timeSum (sampleBucket theta sun prev cur) (cur.t - prev.t),
    deepSum :=
      if 0 < (sun cur).2 ∧ (sun cur).2 < 15 then
        bump st.deepSum (sampleBucket theta sun prev cur) (cur.t - prev.t)
      else st.deepSum,
    blindSum :=
      if (0 < (sun cur).2 ∧ (sun cur).2 < 15)
          ∧ (sampleImpact theta sun prev cur < 30 ∨ 330 < sampleImpact theta sun prev cur) then
        bump st.blindSum (sampleBucket theta sun prev cur) (cur.t - prev.t)
      else st.blindSum }

/-- Daylight branch of one sample, src/main.go lines 217-269: accumulate the
histograms, then run the state machine for the classified state and emit the
GPX and CSV output. -/
def validStep (theta : Point → Point → ℚ) (sun : Point → ℚ × ℚ)
    (st : PipeState) (prev cur : Point) : PipeState :=
  finishSample (accumHists theta sun st prev cur)
    (classify (sun cur).2 (sampleImpact theta sun prev cur)) prev cur
    (sampleRecord theta sun prev cur)

/-- Processing of one consecutive pair of track points, src/main.go lines
176-270.  The pause-detection gap check and the zero-longitude-delta check skip
the pair entirely; the longitude delta in radians is zero exactly when the raw
longitudes coincide, since scaling by pi over 180 is injective.  The oracle
theta stands for the atan2 spherical-bearing term of lines 196-200 and sun for
the external suncalc ephemeris (azimuth, elevation) of line 208. -/
def processPair (pause : ℚ) (theta : Point → Point → ℚ) (sun : Point → ℚ × ℚ)
    (st : PipeState) (prev cur : Point) : PipeState :=
  if pause < cur.t - prev.t then st
  else if cur.lon - prev.lon = 0 then st
  else if (sun cur).2 < 0 then downStep st prev cur
  else validStep theta sun st prev cur

/-- Iteration over the points of one segment (src/main.go line 175): every
point from index 1 on is processed against its predecessor. -/
def processPointsAux (pause : ℚ) (theta : Point → Point → ℚ) (sun : Point → ℚ × ℚ) :
    PipeState → Point → List Point → PipeState
  | st, _, [] => st
  | st, prev, cur :: rest =>
    processPointsAux pause theta sun (processPair pause theta sun st prev cur) cur rest

/-- Processing of one GPX segment: fresh histograms and output buffers, the
sun state carried in from the run. -/
def processSegment (pause : ℚ) (theta : Point → Point → ℚ) (sun : Point → ℚ × ℚ)
    (s : SunState) : List Point → PipeState
  | [] => initSeg s
  | p :: rest => processPointsAux pause theta sun (initSeg s) p rest

/-- Sun state after processing all segments of one track in order (the only
cross-segment state the program keeps). -/
def processTrackState (pause : ℚ) (theta : Point → Point → ℚ) (sun : Point → ℚ × ℚ) :
    SunState → List (List Point) → SunState
  | st, [] => st
  | st, seg :: rest =>
    processTrackState pause theta sun (processSegment pause theta sun st seg).sun rest

/-- Sun state at the start of processing of each track of a run, given the
state entering the first track: the state is threaded from track to track. -/
def trackStartStates (pause : ℚ) (theta : Point → Point → ℚ) (sun : Point → ℚ × ℚ) :
    SunState → List (List (List Point)) → List SunState
  | _, [] => []
  | st, t :: ts =>
    st :: trackStartStates pause theta sun (processTrackState pause theta sun st t) ts

/-- State produced by the single reset at src/main.go line 149, executed once
before the track loop: currentSunState starts at the Go zero value SunDowned
and hasChanged(Unknown) commits Unknown. -/
def runInitialState : SunState := (hasChangedP SunDowned Unknown).2

/-- Sun state at the start of each track of a whole run. -/
def runTrackStartStates (pause : ℚ) (theta : Point → Point → ℚ) (sun : Point → ℚ × ℚ)
    (tracks : List (List (List Point))) : List SunState :=
  trackStartStates pause theta sun runInitialState tracks

/-- Pause-detection default of src/main.go line 123: ParseDuration("10s"),
in seconds. -/
def defaultPauseDetectSeconds : ℚ := 10

/-- Number of consecutive pairs of a segment that are neither skipped (pause
gap exceeded, or zero longitude delta) nor classified Down, i.e. the samples
that contribute to the histograms. -/
def validCount (pause : ℚ) (sun : Point → ℚ × ℚ) : Point → List Point → ℕ
  | _, [] => 0
  | prev, cur :: rest =>
    (if ¬pause < cur.t - prev.t ∧ cur.lon - prev.lon ≠ 0 ∧ ¬(sun cur).2 < 0 then 1 else 0)
      + validCount pause sun cur rest

/-- Total elapsed seconds of exactly the contributing samples of a segment. -/
def validDur (pause : ℚ) (sun : Point → ℚ × ℚ) : Point → List Point → ℚ
  | _, [] => 0
  | prev, cur :: rest =>
    (if ¬pause < cur.t - prev.t ∧ cur.lon - prev.lon ≠ 0 ∧ ¬(sun cur).2 < 0
      then cur.t - prev.t else 0)
      + validDur pause sun cur rest

/-- Sum of the count histogram over its 360 buckets. -/
def sumCount (st : PipeState) : ℚ := ∑ i ∈ Finset.range 360, st.count i

/-- Sum of the time-sum histogram over its 360 buckets. -/
def sumTime (st : PipeState) : ℚ := ∑ i ∈ Finset.range 360, st.timeSum i

/-- View of a histogram as the 360-element list handed to the statistics
library and to slices.Max. -/
def histList (f : ℕ → ℚ) : List ℚ := (List.range 360).map f

/-- Insertion of an element into a sorted list, for the sorted copy the
statistics library takes. -/
def insertSorted (x : ℚ) : List ℚ → List ℚ
  | [] => [x]
  | y :: ys => if x ≤ y then x :: y :: ys else y :: insertSorted x ys

/-- Sorted copy of a sample list. -/
def sortQ : List ℚ → List ℚ
  | [] => []
  | x :: xs => insertSorted x (sortQ xs)

/-- Modelled from the spec: standard rank-based median over a sorted copy
(mean of the two middle elements on even length), the contract of the external
statistics library (its source is not part of this repository). -/
def medianQ (l : List ℚ) : ℚ :=
  if (sortQ l).length = 0 then 0
  else if (sortQ l).length % 2 = 0 then
    ((sortQ l).getD ((sortQ l).length / 2 - 1) 0
      + (sortQ l).getD ((sortQ l).length / 2) 0) / 2
  else (sortQ l).getD ((sortQ l).length / 2) 0

/-- Modelled from the spec: first quartile, the median of the lower half of
the sorted data (median excluded on odd length). -/
def quartile1 (l : List ℚ) : ℚ :=
  medianQ ((sortQ l).take ((sortQ l).length / 2))

/-- Modelled from the spec: third quartile, the median of the upper half of
the sorted data (median excluded on odd length). -/
def quartile3 (l : List ℚ) : ℚ :=
  medianQ ((sortQ l).drop (((sortQ l).length + 1) / 2))

/-- Modelled from the spec: interquartile range Q3 - Q1 over the histogram
treated as an unordered sample population. -/
def interQuartileRange (l : List ℚ) : ℚ := quartile3 l - quartile1 l

/-- Maximum of a nonempty sample list (stats.Max and slices.Max; the program
only applies it to the 360-element histograms). -/
def maxQ : List ℚ → ℚ
  | [] => 0
  | x :: xs => xs.foldl max x

/-- Float64 division as the program performs it: none marks the non-finite
value (NaN or infinity) Go produces when the divisor is zero; the program has
no guard around either division, so whatever this yields is published. -/
def fdiv (a b : ℚ) : Option ℚ := if b = 0 then none else some (a / b)

/-- Peak factor exactly as printed at src/main.go line 285:
maxSunImpactTime / interQuartileRange, unguarded. -/
def codePeakFactor (timeHist : List ℚ) : Option ℚ :=
  fdiv (maxQ timeHist) (interQuartileRange timeHist)

/-- Normalized count per bucket exactly as written to the CSV at src/main.go
line 299: count[bucket] * 100 / max(count), unguarded. -/
def codeNormalizedCount (countHist : List ℚ) (bucket : ℕ) : Option ℚ :=
  fdiv (countHist.getD bucket 0 * 100) (maxQ countHist)

/-- Latitude and longitude of a point, in degrees, over the reals, for the
trigonometric bearing computation. -/
structure RPoint where
  lat : ℝ
  lon : ℝ

/-- Helper of src/main.go lines 32-34. -/
noncomputable def degreesToRadians (x : ℝ) : ℝ := x * Real.pi / 180

/-- Go's math.Atan2(y, x): the argument of the complex number x + y i,
in (-pi, pi]. -/
noncomputable def atan2 (y x : ℝ) : ℝ := Complex.arg ⟨x, y⟩

/-- Bearing computation of src/main.go lines 184-206, over the reals:
spherical initial bearing via atan2, converted to degrees and normalized by
the inline Mod-and-conditional-add idiom. -/
noncomputable def carHeading (p1 p2 : RPoint) : ℝ :=
  let phi1 := degreesToRadians p1.lat
  let phi2 := degreesToRadians p2.lat
  let deltaLambda := degreesToRadians p2.lon - degreesToRadians p1.lon
  let leftSide := Real.sin deltaLambda * Real.cos phi2
  let rightSide := Real.cos phi1 * Real.sin phi2
    - Real.sin phi1 * Real.cos phi2 * Real.cos deltaLambda
  normalize360 (atan2 leftSide rightSide * 180 / Real.pi)

/-- Modelled from the spec: the standard spherical bearing formula with
normalize360 written as ((d mod 360) + 360) mod 360. -/
noncomputable def specBearing (p1 p2 : RPoint) : ℝ :=
  let phi1 := degreesToRadians p1.lat
  let phi2 := degreesToRadians p2.lat
  let deltaLambda := degreesToRadians p2.lon - degreesToRadians p1.lon
  let x := Real.sin deltaLambda * Real.cos phi2
  let y := Real.cos phi1 * Real.sin phi2
    - Real.sin phi1 * Real.cos phi2 * Real.cos deltaLambda
  specNormalize360 (atan2 x y * 180 / Real.pi)

/-- C1 counterexample: at sun elevation exactly 0 with impact angle 5, the
claim puts the sample in the Low/Blinding band (here: Blinding, since 5 < 30),
but the program's strict test elevation > 0 (src/main.go line 240) sends it to
the else branch, yielding Up. -/
theorem classify_zero_elevation_is_up :
    classify 0 5 = SunUp ∧ SunUp ≠ SunBlinding := by
  exact ⟨by decide, by decide⟩

/-- C1 amended: the classifier assigns states by these thresholds in priority
order: elevation < 0 is Down; 0 < elevation < 15 with impact angle < 30 or
> 330 is Blinding; 0 < elevation < 15 otherwise is Low; elevation ≥ 15 or
elevation exactly 0 is Up (the 15 degree boundary is inclusive to Up, and
elevation exactly 0 falls to Up, not to the Low/Blinding band). -/
theorem classify_thresholds (el imp : ℚ) :
    (classify el imp = SunDowned ↔ el < 0) ∧
    (classify el imp = SunBlinding ↔ 0 < el ∧ el < 15 ∧ (imp < 30 ∨ 330 < imp)) ∧
    (classify el imp = SunLow ↔ 0 < el ∧ el < 15 ∧ ¬(imp < 30 ∨ 330 < imp)) ∧
    (classify el imp = SunUp ↔ 0 ≤ el ∧ (el = 0 ∨ 15 ≤ el)) := by
  unfold classify
  by_cases h1 : el < 0
  · rw [if_pos h1]
    refine ⟨by simp [h1], ?_, ?_, ?_⟩
    · simp only [reduceCtorEq, false_iff, not_and]
      intro h0; exact absurd h1 (lt_asymm h0)
    · simp only [reduceCtorEq, false_iff, not_and]
      intro h0; exact absurd h1 (lt_asymm h0)
    · simp only [reduceCtorEq, false_iff, not_and]
      intro h0; exact absurd h1 (not_lt.mpr h0)
  · rw [if_neg h1]
    by_cases h2 : 0 < el ∧ el < 15
    · rw [if_pos h2]
      by_cases h3 : imp < 30 ∨ 330 < imp
      · rw [if_pos h3]
        refine ⟨by simp [h1], by simp [h2.1, h2.2, h3], ?_, ?_⟩
        · simp only [reduceCtorEq, false_iff, not_and]
          exact fun _ _ => not_not_intro h3
        · simp only [reduceCtorEq, false_iff, not_and]
          intro h0
          rintro (he | hge)
          · exact absurd h2.1 (by rw [he]; exact lt_irrefl 0)
          · exact absurd h2.2 (not_lt.mpr hge)
      · rw [if_neg h3]
        refine ⟨by simp [h1], ?_, by simp [h2.1, h2.2, h3], ?_⟩
        · simp only [reduceCtorEq, false_iff, not_and]
          exact fun _ _ => h3
        · simp only [reduceCtorEq, false_iff, not_and]
          intro h0
          rintro (he | hge)
          · exact absurd h2.1 (by rw [he]; exact lt_irrefl 0)
          · exact absurd h2.2 (not_lt.mpr hge)
    · rw [if_neg h2]
      refine ⟨by simp [h1], ?_, ?_, ?_⟩
      · simp only [reduceCtorEq, false_iff, not_and]
        intro h0 h15; exact absurd ⟨h0, h15⟩ h2
      · simp only [reduceCtorEq, false_iff, not_and]
        intro h0 h15; exact absurd ⟨h0, h15⟩ h2
      · simp only [true_iff]
        refine ⟨le_of_not_lt h1, ?_⟩
        rcases lt_or_eq_of_le (le_of_not_lt h1) with hlt | heq
        · exact Or.inr (le_of_not_lt fun hlt15 => h2 ⟨hlt, hlt15⟩)
        · exact Or.inl heq.symm

/-- C3: the histogram bucket index, the truncation of the normalized impact
angle, is an integer between 0 and 359 for every real-valued latitude,
ephemeris azimuth and heading (including arguments whose normalization adds
360 to a negative remainder), and the natural-number index the pipeline uses
to write the histograms is below 360, so every histogram access is in
bounds. -/
theorem bucket_index_in_bounds :
    (∀ lat azRaw heading : ℝ,
      0 ≤ rtrunc (codeSunImpact lat azRaw heading) ∧
      rtrunc (codeSunImpact lat azRaw heading) ≤ 359) ∧
    (∀ lat azRaw heading : ℚ,
      (rtrunc (codeSunImpact lat azRaw heading)).toNat < 360) := by
  constructor
  · intro lat azRaw heading
    exact ⟨rtrunc_normalize360_nonneg _, rtrunc_normalize360_le _⟩
  · intro lat azRaw heading
    have h := rtrunc_normalize360_le (K := ℚ)
      (normalize360 (if 0 < lat then azRaw + 180 else azRaw) - heading)
    unfold codeSunImpact
    omega

/-- C8: for every processed (non-skipped, non-Down) sample, the CSV record the
pipeline emits carries an impact angle equal to the specified
normalize360(correctedAzimuth - heading), where correctedAzimuth is the
ephemeris azimuth plus 180 normalized when the latitude is strictly positive
and the unmodified ephemeris azimuth otherwise. -/
theorem impact_angle_refines_spec (pause : ℚ) (theta : Point → Point → ℚ)
    (sun : Point → ℚ × ℚ) (st : PipeState) (prev cur : Point)
    (hgap : ¬pause < cur.t - prev.t) (hlon : cur.lon - prev.lon ≠ 0)
    (hel : ¬(sun cur).2 < 0) :
    ∃ r : Record,
      (processPair pause theta sun st prev cur).csv = st.csv ++ [r] ∧
      r.heading = headingOf theta prev cur ∧
      r.impact = specSunImpact cur.lat (sun cur).1 r.heading := by
  have hcode : ∀ lat azRaw heading : ℚ,
      codeSunImpact lat azRaw heading = specSunImpact lat azRaw heading := by
    intro lat azRaw heading
    unfold codeSunImpact specSunImpact
    split_ifs with h
    · rfl
    · exact normalize360_normalize360_sub azRaw heading
  refine ⟨sampleRecord theta sun prev cur, ?_, rfl, ?_⟩
  · unfold processPair
    rw [if_neg hgap, if_neg hlon, if_neg hel]
    simp [validStep, finishSample, accumHists]
  · exact hcode cur.lat (sun cur).1 (headingOf theta prev cur)

/-- C8 witness: a concrete processed sample (gap 1 second, distinct
longitudes, elevation 20) whose emitted record satisfies the impact-angle
refinement. -/
theorem impact_angle_refines_spec_witness :
    ∃ r : Record,
      (processPair 10 (fun _ _ => 90) (fun _ => (45, 20)) (initSeg Unknown)
        ⟨0, 0, 0⟩ ⟨1, 1, 1⟩).csv = (initSeg Unknown).csv ++ [r] ∧
      r.heading = headingOf (fun _ _ => 90) ⟨0, 0, 0⟩ ⟨1, 1, 1⟩ ∧
      r.impact = specSunImpact (1 : ℚ) 45 r.heading :=
  impact_angle_refines_spec 10 (fun _ _ => 90) (fun _ => (45, 20)) (initSeg Unknown)
    ⟨0, 0, 0⟩ ⟨1, 1, 1⟩ (by norm_num) (by norm_num) (by norm_num)

/-- Case analysis of processPair: a skipped pair leaves the state unchanged. -/
theorem processPair_of_skip {pause : ℚ} {theta : Point → Point → ℚ}
    {sun : Point → ℚ × ℚ} {st : PipeState} {prev cur : Point}
    (h : cur.lon - prev.lon = 0 ∨ pause < cur.t - prev.t) :
    processPair pause theta sun st prev cur = st := by
  unfold processPair
  rcases h with h | h
  · by_cases hg : pause < cur.t - prev.t
    · rw [if_pos hg]
    · rw [if_neg hg, if_pos h]
  · rw [if_pos h]

/-- Case analysis of processPair: a non-skipped Down sample takes the Down
branch. -/
theorem processPair_of_down {pause : ℚ} {theta : Point → Point → ℚ}
    {sun : Point → ℚ × ℚ} {st : PipeState} {prev cur : Point}
    (hgap : ¬pause < cur.t - prev.t) (hlon : cur.lon - prev.lon ≠ 0)
    (hel : (sun cur).2 < 0) :
    processPair pause theta sun st prev cur = downStep st prev cur := by
  unfold processPair
  rw [if_neg hgap, if_neg hlon, if_pos hel]

/-- Case analysis of processPair: a non-skipped daylight sample takes the
accumulate-and-emit branch. -/
theorem processPair_of_valid {pause : ℚ} {theta : Point → Point → ℚ}
    {sun : Point → ℚ × ℚ} {st : PipeState} {prev cur : Point}
    (hgap : ¬pause < cur.t - prev.t) (hlon : cur.lon - prev.lon ≠ 0)
    (hel : ¬(sun cur).2 < 0) :
    processPair pause theta sun st prev cur = validStep theta sun st prev cur := by
  unfold processPair
  rw [if_neg hgap, if_neg hlon, if_neg hel]

/-- The histogram bucket of every sample is below 360. -/
theorem sampleBucket_lt (theta : Point → Point → ℚ) (sun : Point → ℚ × ℚ)
    (prev cur : Point) : sampleBucket theta sun prev cur < 360 := by
  unfold sampleBucket sampleImpact
  have h1 := rtrunc_normalize360_nonneg (K := ℚ)
    (azCorrectedOf sun cur - headingOf theta prev cur)
  have h2 := rtrunc_normalize360_le (K := ℚ)
    (azCorrectedOf sun cur - headingOf theta prev cur)
  omega

/-- C7: the pause-detection default is 10 seconds, and a consecutive pair
with zero longitude delta or a time gap strictly above the threshold is
skipped entirely: the processing state (histograms, sun state, CSV stream and
GPX output) is returned unchanged and iteration continues with the next
pair. -/
theorem skipped_pair_contributes_nothing :
    defaultPauseDetectSeconds = 10 ∧
    ∀ (pause : ℚ) (theta : Point → Point → ℚ) (sun : Point → ℚ × ℚ)
      (st : PipeState) (prev cur : Point),
      (cur.lon - prev.lon = 0 ∨ pause < cur.t - prev.t) →
      processPair pause theta sun st prev cur = st := by
  refine ⟨rfl, ?_⟩
  intro pause theta sun st prev cur h
  exact processPair_of_skip h

/-- C7 witness: a pair 100 seconds apart (beyond the 10 second threshold)
leaves the state untouched. -/
theorem skipped_pair_contributes_nothing_witness :
    processPair 10 (fun _ _ => 0) (fun _ => (0, 20)) (initSeg Unknown)
      ⟨0, 0, 0⟩ ⟨100, 1, 1⟩ = initSeg Unknown :=
  skipped_pair_contributes_nothing.2 10 (fun _ _ => 0) (fun _ => (0, 20))
    (initSeg Unknown) ⟨0, 0, 0⟩ ⟨100, 1, 1⟩ (Or.inr (by norm_num))

/-- C5 counterexample: a non-skipped sample with elevation -10 (state Down)
produces no CSV row at all (the Down branch continues before the CSV write),
even though its point is appended to the segmented output track; the claim
that such a sample appears as one CSV row is false. -/
theorem down_sample_no_csv_row :
    (processPair 10 (fun _ _ => 0) (fun _ => (0, -10)) (initSeg Unknown)
      ⟨0, 0, 0⟩ ⟨1, 1, 1⟩).csv = [] ∧
    (processPair 10 (fun _ _ => 0) (fun _ => (0, -10)) (initSeg Unknown)
      ⟨0, 0, 0⟩ ⟨1, 1, 1⟩).gpx =
      [GpxEvent.sectionOpen SunDowned "Sun Down" ⟨0, 0, 0⟩,
        GpxEvent.trackPoint ⟨1, 1, 1⟩] := by
  constructor
  · norm_num [processPair, downStep, initSeg]
  · norm_num [processPair, downStep, hasChangedP, SunState.EnumIndex,
      SunState.ToString, initSeg]

/-- C5 amended: a non-skipped sample whose sun elevation is negative
contributes to no count or time-sum histogram and produces no CSV row, but
its point still appears in the segmented output track. -/
theorem down_sample_in_track_not_csv (pause : ℚ) (theta : Point → Point → ℚ)
    (sun : Point → ℚ × ℚ) (st : PipeState) (prev cur : Point)
    (hgap : ¬pause < cur.t - prev.t) (hlon : cur.lon - prev.lon ≠ 0)
    (hel : (sun cur).2 < 0) :
    (processPair pause theta sun st prev cur).count = st.count ∧
    (processPair pause theta sun st prev cur).timeSum = st.timeSum ∧
    (processPair pause theta sun st prev cur).deepSum = st.deepSum ∧
    (processPair pause theta sun st prev cur).blindSum = st.blindSum ∧
    (processPair pause theta sun st prev cur).csv = st.csv ∧
    ∃ pre, (processPair pause theta sun st prev cur).gpx
      = st.gpx ++ pre ++ [GpxEvent.trackPoint cur] := by
  unfold processPair
  rw [if_neg hgap, if_neg hlon, if_pos hel]
  exact ⟨rfl, rfl, rfl, rfl, rfl, _, rfl⟩

/-- C5 witness: a concrete Down sample (elevation -5, gap 2 seconds, distinct
longitudes) leaves all histograms and the CSV stream unchanged while its
point reaches the output track. -/
theorem down_sample_in_track_not_csv_witness :
    (processPair 10 (fun _ _ => 45) (fun _ => (90, -5)) (initSeg SunUp)
      ⟨0, 0, 0⟩ ⟨2, 1, 1⟩).count = (initSeg SunUp).count ∧
    (processPair 10 (fun _ _ => 45) (fun _ => (90, -5)) (initSeg SunUp)
      ⟨0, 0, 0⟩ ⟨2, 1, 1⟩).timeSum = (initSeg SunUp).timeSum ∧
    (processPair 10 (fun _ _ => 45) (fun _ => (90, -5)) (initSeg SunUp)
      ⟨0, 0, 0⟩ ⟨2, 1, 1⟩).deepSum = (initSeg SunUp).deepSum ∧
    (processPair 10 (fun _ _ => 45) (fun _ => (90, -5)) (initSeg SunUp)
      ⟨0, 0, 0⟩ ⟨2, 1, 1⟩).blindSum = (initSeg SunUp).blindSum ∧
    (processPair 10 (fun _ _ => 45) (fun _ => (90, -5)) (initSeg SunUp)
      ⟨0, 0, 0⟩ ⟨2, 1, 1⟩).csv = (initSeg SunUp).csv ∧
    ∃ pre, (processPair 10 (fun _ _ => 45) (fun _ => (90, -5)) (initSeg SunUp)
      ⟨0, 0, 0⟩ ⟨2, 1, 1⟩).gpx
      = (initSeg SunUp).gpx ++ pre ++ [GpxEvent.trackPoint ⟨2, 1, 1⟩] :=
  down_sample_in_track_not_csv 10 (fun _ _ => 45) (fun _ => (90, -5))
    (initSeg SunUp) ⟨0, 0, 0⟩ ⟨2, 1, 1⟩ (by norm_num) (by norm_num) (by norm_num)

/-- State-machine fact: from the initial Unknown state, any properly
classified state is a change and is committed. -/
theorem hasChangedP_from_unknown (s : SunState) (h : s ≠ Unknown) :
    hasChangedP Unknown s = (true, s) := by
  cases s <;> first | exact absurd rfl h | decide

/-- C10: the classifier never yields Unknown, so after the state machine is
initialized to Unknown, the first non-skipped classified sample always
registers a change and opens a new labeled output section (boundary at the
previous point) before appending the sample point. -/
theorem first_sample_opens_section :
    (∀ el imp : ℚ, classify el imp ≠ Unknown) ∧
    ∀ (pause : ℚ) (theta : Point → Point → ℚ) (sun : Point → ℚ × ℚ)
      (st : PipeState) (prev cur : Point),
      st.sun = Unknown → ¬pause < cur.t - prev.t → cur.lon - prev.lon ≠ 0 →
      ∃ s : SunState, s ≠ Unknown ∧
        (processPair pause theta sun st prev cur).gpx =
          st.gpx ++ [GpxEvent.sectionOpen s s.ToString prev, GpxEvent.trackPoint cur] := by
  have hne : ∀ el imp : ℚ, classify el imp ≠ Unknown := by
    intro el imp
    unfold classify
    split_ifs <;> simp
  refine ⟨hne, ?_⟩
  intro pause theta sun st prev cur hst hgap hlon
  unfold processPair
  rw [if_neg hgap, if_neg hlon]
  by_cases hel : (sun cur).2 < 0
  · rw [if_pos hel]
    refine ⟨SunDowned, by simp, ?_⟩
    unfold downStep
    rw [hst, hasChangedP_from_unknown SunDowned (by simp)]
    simp
  · rw [if_neg hel]
    have hcls := hne (sun cur).2 (sampleImpact theta sun prev cur)
    refine ⟨classify (sun cur).2 (sampleImpact theta sun prev cur), hcls, ?_⟩
    simp [validStep, finishSample, accumHists, hst, hasChangedP_from_unknown _ hcls]

/-- C10 witness: from the Unknown state, a concrete non-skipped sample
(elevation 20, so state Up) opens a new labeled section followed by its
point. -/
theorem first_sample_opens_section_witness :
    ∃ s : SunState, s ≠ Unknown ∧
      (processPair 10 (fun _ _ => 0) (fun _ => (0, 20)) (initSeg Unknown)
        ⟨0, 0, 0⟩ ⟨1, 0, 1⟩).gpx =
        (initSeg Unknown).gpx
          ++ [GpxEvent.sectionOpen s s.ToString ⟨0, 0, 0⟩,
              GpxEvent.trackPoint ⟨1, 0, 1⟩] :=
  first_sample_opens_section.2 10 (fun _ _ => 0) (fun _ => (0, 20))
    (initSeg Unknown) ⟨0, 0, 0⟩ ⟨1, 0, 1⟩ rfl (by norm_num) (by norm_num)

/-- C9: for every pair of points, the heading the program computes equals the
spec formula, the spherical initial bearing atan2(sin dl cos phi2,
cos phi1 sin phi2 - sin phi1 cos phi2 cos dl) converted to degrees and
normalized by ((d mod 360) + 360) mod 360, and the returned value always lies
in [0, 360). -/
theorem bearing_formula_and_range (p1 p2 : RPoint) :
    carHeading p1 p2 = specBearing p1 p2 ∧
    0 ≤ carHeading p1 p2 ∧ carHeading p1 p2 < 360 := by
  unfold carHeading specBearing
  exact ⟨(specNormalize360_eq _).symm, normalize360_nonneg _, normalize360_lt_360 _⟩

/-- C4 counterexample: a run of two one-segment tracks, each a pair of points
one second apart with distinct longitudes under a sun at elevation 20.  The
first track ends in state Up, and the second track starts processing in state
Up, not Unknown: the single reset at src/main.go line 149 happens once before
the track loop, so the state reached at the end of one track carries into the
next. -/
theorem state_carries_over_between_tracks :
    runTrackStartStates 10 (fun _ _ => 0) (fun _ => (0, 20))
      [[[⟨0, 0, 0⟩, ⟨1, 0, 1⟩]], [[⟨2, 0, 0⟩, ⟨3, 0, 1⟩]]]
      = [Unknown, SunUp] ∧ SunUp ≠ Unknown := by
  refine ⟨?_, by simp⟩
  have hpair : (processPair 10 (fun _ _ => 0) (fun _ => (0, 20))
      (initSeg Unknown) ⟨0, 0, 0⟩ ⟨1, 0, 1⟩).sun = SunUp := by
    norm_num [processPair, validStep, finishSample, accumHists, classify,
      hasChangedP, SunState.EnumIndex, initSeg]
  have htr : processTrackState 10 (fun _ _ => 0) (fun _ => (0, 20)) Unknown
      [[⟨0, 0, 0⟩, ⟨1, 0, 1⟩]] = SunUp := by
    simp only [processTrackState, processSegment, processPointsAux]
    exact hpair
  unfold runTrackStartStates
  rw [show runInitialState = Unknown from by decide]
  simp only [trackStartStates, htr]

/-- C4 amended: the state machine is reset to Unknown exactly once, at the
start of the run before the first track; the state each track starts with is
the fold of whole-track processing over all earlier tracks from that single
reset, with no reset in between, so a sun state reached at the end of one
track does carry over into the next. -/
theorem sunstate_reset_once_per_run :
    runInitialState = Unknown ∧
    ∀ (pause : ℚ) (theta : Point → Point → ℚ) (sun : Point → ℚ × ℚ)
      (st : SunState) (ts : List (List (List Point))) (i : ℕ),
      i < ts.length →
      (trackStartStates pause theta sun st ts).getD i Unknown =
        (ts.take i).foldl (fun s t => processTrackState pause theta sun s t) st := by
  refine ⟨by decide, ?_⟩
  intro pause theta sun st ts i
  induction ts generalizing st i with
  | nil => intro h; simp at h
  | cons t ts ih =>
    intro h
    cases i with
    | zero => simp [trackStartStates]
    | succ n =>
      simp only [trackStartStates, List.getD_cons_succ, List.take_succ_cons,
        List.foldl_cons]
      exact ih _ n (by simpa using h)

/-- C4 amended witness: in a concrete two-track run, the state the second
track starts with is the result of processing the first track from the
initial Unknown. -/
theorem sunstate_reset_once_per_run_witness :
    (trackStartStates 10 (fun _ _ => 0) (fun _ => (0, 20)) Unknown
      [[[⟨0, 0, 0⟩]], [[⟨5, 0, 0⟩]]]).getD 1 Unknown =
      (([[[⟨0, 0, 0⟩]], [[⟨5, 0, 0⟩]]] : List (List (List Point))).take 1).foldl
        (fun s t => processTrackState 10 (fun _ _ => 0) (fun _ => (0, 20)) s t)
        Unknown :=
  sunstate_reset_once_per_run.2 10 (fun _ _ => 0) (fun _ => (0, 20)) Unknown
    [[[⟨0, 0, 0⟩]], [[⟨5, 0, 0⟩]]] 1 (by norm_num)

/-- Adding x to one bucket below 360 raises the 360-bucket sum by x. -/
theorem sum_bump (f : ℕ → ℚ) (i : ℕ) (x : ℚ) (hi : i < 360) :
    ∑ j ∈ Finset.range 360, bump f i x j = (∑ j ∈ Finset.range 360, f j) + x := by
  have h : ∀ j, bump f i x j = f j + if j = i then x else 0 := by
    intro j; unfold bump; by_cases hj : j = i <;> simp [hj]
  calc ∑ j ∈ Finset.range 360, bump f i x j
      = ∑ j ∈ Finset.range 360, (f j + if j = i then x else 0) :=
        Finset.sum_congr rfl fun j _ => h j
    _ = (∑ j ∈ Finset.range 360, f j)
        + ∑ j ∈ Finset.range 360, (if j = i then x else 0) :=
        Finset.sum_add_distrib
    _ = (∑ j ∈ Finset.range 360, f j) + x := by
        rw [Finset.sum_ite_eq' (Finset.range 360) i fun _ => x]
        simp [Finset.mem_range.mpr hi]

/-- Bumping a nonnegative histogram by a nonnegative amount keeps it
nonnegative. -/
theorem bump_nonneg {f : ℕ → ℚ} {x : ℚ} (hf : ∀ j, 0 ≤ f j) (hx : 0 ≤ x)
    (i j : ℕ) : 0 ≤ bump f i x j := by
  unfold bump
  split_ifs
  · exact add_nonneg (hf j) hx
  · exact hf j

/-- One step of the pipeline raises the count-histogram sum by one exactly on
a non-skipped, non-Down sample. -/
theorem processPair_sumCount (pause : ℚ) (theta : Point → Point → ℚ)
    (sun : Point → ℚ × ℚ) (st : PipeState) (prev cur : Point) :
    sumCount (processPair pause theta sun st prev cur) =
      sumCount st +
        if ¬pause < cur.t - prev.t ∧ cur.lon - prev.lon ≠ 0 ∧ ¬(sun cur).2 < 0
        then 1 else 0 := by
  by_cases h1 : pause < cur.t - prev.t
  · rw [processPair_of_skip (Or.inr h1), if_neg (by tauto)]; ring
  · by_cases h2 : cur.lon - prev.lon = 0
    · rw [processPair_of_skip (Or.inl h2), if_neg (by tauto)]; ring
    · by_cases h3 : (sun cur).2 < 0
      · rw [processPair_of_down h1 h2 h3, if_neg (by tauto)]
        simp [downStep, sumCount]
      · rw [processPair_of_valid h1 h2 h3, if_pos ⟨h1, h2, h3⟩]
        unfold sumCount
        simp only [validStep, finishSample, accumHists]
        exact sum_bump st.count _ 1 (sampleBucket_lt theta sun prev cur)

/-- One step of the pipeline raises the time-sum-histogram sum by the elapsed
seconds exactly on a non-skipped, non-Down sample. -/
theorem processPair_sumTime (pause : ℚ) (theta : Point → Point → ℚ)
    (sun : Point → ℚ × ℚ) (st : PipeState) (prev cur : Point) :
    sumTime (processPair pause theta sun st prev cur) =
      sumTime st +
        if ¬pause < cur.t - prev.t ∧ cur.lon - prev.lon ≠ 0 ∧ ¬(sun cur).2 < 0
        then cur.t - prev.t else 0 := by
  by_cases h1 : pause < cur.t - prev.t
  · rw [processPair_of_skip (Or.inr h1), if_neg (by tauto)]; ring
  · by_cases h2 : cur.lon - prev.lon = 0
    · rw [processPair_of_skip (Or.inl h2), if_neg (by tauto)]; ring
    · by_cases h3 : (sun cur).2 < 0
      · rw [processPair_of_down h1 h2 h3, if_neg (by tauto)]
        simp [downStep, sumTime]
      · rw [processPair_of_valid h1 h2 h3, if_pos ⟨h1, h2, h3⟩]
        unfold sumTime
        simp only [validStep, finishSample, accumHists]
        exact sum_bump st.timeSum _ _ (sampleBucket_lt theta sun prev cur)

/-- One step of the pipeline keeps the time-sum histogram nonnegative, given
a nonnegative elapsed time for the pair. -/
theorem processPair_timeSum_nonneg {pause : ℚ} {theta : Point → Point → ℚ}
    {sun : Point → ℚ × ℚ} {st : PipeState} {prev cur : Point}
    (h0 : ∀ j, 0 ≤ st.timeSum j) (hdur : 0 ≤ cur.t - prev.t) :
    ∀ j, 0 ≤ (processPair pause theta sun st prev cur).timeSum j := by
  by_cases h1 : pause < cur.t - prev.t
  · rw [processPair_of_skip (Or.inr h1)]; exact h0
  · by_cases h2 : cur.lon - prev.lon = 0
    · rw [processPair_of_skip (Or.inl h2)]; exact h0
    · by_cases h3 : (sun cur).2 < 0
      · rw [processPair_of_down h1 h2 h3]; exact h0
      · rw [processPair_of_valid h1 h2 h3]
        intro j
        simp only [validStep, finishSample, accumHists]
        exact bump_nonneg h0 hdur _ j

/-- Conservation over a whole segment tail, by induction on the point list:
starting from any state, the histogram sums grow by exactly the count and
total duration of the contributing samples, and the time-sum histogram stays
nonnegative when the timestamps are nondecreasing. -/
theorem conservation_aux (pause : ℚ) (theta : Point → Point → ℚ)
    (sun : Point → ℚ × ℚ) :
    ∀ (rest : List Point) (prev : Point) (st : PipeState),
      List.Chain' (fun a b : Point => a.t ≤ b.t) (prev :: rest) →
      (∀ j, 0 ≤ st.timeSum j) →
      sumCount (processPointsAux pause theta sun st prev rest)
        = sumCount st + (validCount pause sun prev rest : ℚ) ∧
      sumTime (processPointsAux pause theta sun st prev rest)
        = sumTime st + validDur pause sun prev rest ∧
      ∀ j, 0 ≤ (processPointsAux pause theta sun st prev rest).timeSum j := by
  intro rest
  induction rest with
  | nil =>
    intro prev st hchain h0
    refine ⟨?_, ?_, h0⟩ <;> simp [processPointsAux, validCount, validDur]
  | cons cur rest ih =>
    intro prev st hchain h0
    obtain ⟨hab, htail⟩ := List.chain'_cons.mp hchain
    have hdur : 0 ≤ cur.t - prev.t := by linarith
    have hstep0 : ∀ j, 0 ≤ (processPair pause theta sun st prev cur).timeSum j :=
      processPair_timeSum_nonneg h0 hdur
    obtain ⟨ihc, iht, ihn⟩ := ih cur (processPair pause theta sun st prev cur) htail hstep0
    refine ⟨?_, ?_, ?_⟩
    · simp only [processPointsAux]
      rw [ihc, processPair_sumCount]
      simp only [validCount]
      push_cast
      ring
    · simp only [processPointsAux]
      rw [iht, processPair_sumTime]
      simp only [validDur]
      ring
    · simp only [processPointsAux]
      exact ihn

/-- C6: for every segment with nondecreasing timestamps, the sum of the count
histogram equals the number of non-Down, non-skipped samples, the sum of the
time-sum histogram equals the total elapsed seconds of exactly those samples,
and every time-sum bucket is nonnegative. -/
theorem segment_histogram_conservation (pause : ℚ) (theta : Point → Point → ℚ)
    (sun : Point → ℚ × ℚ) (s : SunState) (p : Point) (rest : List Point)
    (hchain : List.Chain' (fun a b : Point => a.t ≤ b.t) (p :: rest)) :
    sumCount (processSegment pause theta sun s (p :: rest))
      = (validCount pause sun p rest : ℚ) ∧
    sumTime (processSegment pause theta sun s (p :: rest))
      = validDur pause sun p rest ∧
    ∀ j, 0 ≤ (processSegment pause theta sun s (p :: rest)).timeSum j := by
  have h0 : ∀ j, 0 ≤ (initSeg s).timeSum j := fun j => le_refl 0
  obtain ⟨hc, ht, hn⟩ := conservation_aux pause theta sun rest p (initSeg s) hchain h0
  have he : processSegment pause theta sun s (p :: rest)
      = processPointsAux pause theta sun (initSeg s) p rest := rfl
  rw [he]
  refine ⟨?_, ?_, hn⟩
  · rw [hc]; simp [sumCount, initSeg]
  · rw [ht]; simp [sumTime, initSeg]

/-- C6 witness: a concrete two-point segment with nondecreasing timestamps
satisfies the conservation laws. -/
theorem segment_histogram_conservation_witness :
    sumCount (processSegment 10 (fun _ _ => 0) (fun _ => (0, 20)) Unknown
      [⟨0, 0, 0⟩, ⟨1, 0, 1⟩])
      = (validCount 10 (fun _ => (0, 20)) ⟨0, 0, 0⟩ [⟨1, 0, 1⟩] : ℚ) ∧
    sumTime (processSegment 10 (fun _ _ => 0) (fun _ => (0, 20)) Unknown
      [⟨0, 0, 0⟩, ⟨1, 0, 1⟩])
      = validDur 10 (fun _ => (0, 20)) ⟨0, 0, 0⟩ [⟨1, 0, 1⟩] ∧
    ∀ j, 0 ≤ (processSegment 10 (fun _ _ => 0) (fun _ => (0, 20)) Unknown
      [⟨0, 0, 0⟩, ⟨1, 0, 1⟩]).timeSum j :=
  segment_histogram_conservation 10 (fun _ _ => 0) (fun _ => (0, 20)) Unknown
    ⟨0, 0, 0⟩ [⟨1, 0, 1⟩]
    (List.chain'_cons.mpr ⟨by norm_num, List.chain'_singleton _⟩)

/-- The histogram list of an all-zero histogram is 360 zeros. -/
theorem histList_const_zero : histList (fun _ => (0 : ℚ)) = List.replicate 360 0 := by
  unfold histList
  rw [show (fun _ : ℕ => (0 : ℚ)) = Function.const ℕ (0 : ℚ) from rfl,
    List.map_const, List.length_range]

/-- Sorting an all-zero sample leaves it unchanged. -/
theorem sortQ_replicate_zero (n : ℕ) :
    sortQ (List.replicate n (0 : ℚ)) = List.replicate n 0 := by
  induction n with
  | zero => rfl
  | succ k ih =>
    rw [List.replicate_succ]
    show insertSorted 0 (sortQ (List.replicate k 0)) = _
    rw [ih]
    cases k with
    | zero => rfl
    | succ m =>
      rw [List.replicate_succ]
      show (if (0 : ℚ) ≤ 0 then _ else _) = _
      rw [if_pos le_rfl]

/-- Every position of an all-zero sample reads zero. -/
theorem getD_replicate_zero (n i : ℕ) :
    (List.replicate n (0 : ℚ)).getD i 0 = 0 := by
  induction n generalizing i with
  | zero => rfl
  | succ k ih =>
    rw [List.replicate_succ]
    cases i with
    | zero => rfl
    | succ m => exact ih m

/-- The median of an all-zero sample is zero. -/
theorem medianQ_replicate_zero (n : ℕ) :
    medianQ (List.replicate n (0 : ℚ)) = 0 := by
  unfold medianQ
  rw [sortQ_replicate_zero, List.length_replicate]
  split_ifs <;> simp [getD_replicate_zero]

/-- The interquartile range of an all-zero sample is zero. -/
theorem interQuartileRange_replicate_zero (n : ℕ) :
    interQuartileRange (List.replicate n (0 : ℚ)) = 0 := by
  unfold interQuartileRange quartile1 quartile3
  rw [sortQ_replicate_zero, List.length_replicate, List.take_replicate,
    List.drop_replicate, medianQ_replicate_zero, medianQ_replicate_zero, sub_zero]

/-- The maximum of an all-zero sample is zero. -/
theorem maxQ_replicate_zero (n : ℕ) :
    maxQ (List.replicate n (0 : ℚ)) = 0 := by
  cases n with
  | zero => rfl
  | succ k =>
    rw [List.replicate_succ]
    show List.foldl max 0 (List.replicate k 0) = 0
    induction k with
    | zero => rfl
    | succ m ih =>
      rw [List.replicate_succ]
      show List.foldl max (max 0 0) (List.replicate m 0) = 0
      rw [max_self]
      exact ih

/-- C2 evidence: on a segment with a single track point (no consecutive
pairs) the histograms stay all zero, so the interquartile range of the
time-sum histogram and the maximum of the count histogram are both zero, yet
the program publishes maxSunImpactTime / interQuartileRange (src/main.go
line 285) and count * 100 / max(count) (line 299) with no guard: both
divisions are performed with divisor zero and their non-finite float64
results (modelled by none) are published, and no DegenerateDistribution
condition exists anywhere in the program. -/
theorem degenerate_stats_published :
    interQuartileRange (histList (processSegment 10 (fun _ _ => 0)
      (fun _ => (0, 20)) Unknown [⟨0, 0, 0⟩]).timeSum) = 0 ∧
    codePeakFactor (histList (processSegment 10 (fun _ _ => 0)
      (fun _ => (0, 20)) Unknown [⟨0, 0, 0⟩]).timeSum) = none ∧
    maxQ (histList (processSegment 10 (fun _ _ => 0)
      (fun _ => (0, 20)) Unknown [⟨0, 0, 0⟩]).count) = 0 ∧
    codeNormalizedCount (histList (processSegment 10 (fun _ _ => 0)
      (fun _ => (0, 20)) Unknown [⟨0, 0, 0⟩]).count) 90 = none := by
  have hseg : processSegment 10 (fun _ _ => 0) (fun _ => (0, 20)) Unknown
      [⟨0, 0, 0⟩] = initSeg Unknown := rfl
  have htime : (initSeg Unknown).timeSum = fun _ => (0 : ℚ) := rfl
  have hcount : (initSeg Unknown).count = fun _ => (0 : ℚ) := rfl
  rw [hseg, htime, hcount, histList_const_zero]
  refine ⟨interQuartileRange_replicate_zero 360, ?_, maxQ_replicate_zero 360, ?_⟩
  · unfold codePeakFactor fdiv
    rw [interQuartileRange_replicate_zero]
    simp
  · unfold codeNormalizedCount fdiv
    rw [maxQ_replicate_zero]
    simp

end SunHeading
